import Mathlib

/-
Verification of the tubecast resumable upload engine.

The definitions below are a shallow embedding of
`src/tubecast/services/youtube.py` (the `_resumable_upload` retry loop,
the error-classification constants, `list_videos`) and of the batch loop
of `src/tubecast/cli.py`.  One transport exchange (`insert_request.next_chunk()`
in the Python source) is modelled as a `ChunkOutcome`; a whole run of the
engine consumes a finite trace of such outcomes.  The random source
(`random.random()`) is modelled as a function from the draw index to `ℚ`,
and the observable behaviour of a run — its terminal outcome, the number
of transport calls, the backoff sleep durations and the progress-callback
invocations — is collected in a `RunResult`.
-/

namespace Tubecast

/-- `MAX_RETRIES = 10` in `youtube.py`. -/
def MAX_RETRIES : ℕ := 10

/-- `RETRIABLE_STATUS_CODES = [500, 502, 503, 504]` in `youtube.py`. -/
def RETRIABLE_STATUS_CODES : List ℕ := [500, 502, 503, 504]

/-- The `status` object returned by `next_chunk` (a `MediaUploadProgress`):
carries `resumable_progress` and `total_size`. -/
structure Progress where
  resumable_progress : ℕ
  total_size : ℕ
deriving DecidableEq, Repr

/-- The terminal `response` dictionary returned by `next_chunk`; the engine
only inspects whether the `"id"` key is present (`if "id" in response`). -/
structure UploadResponse where
  id? : Option String
deriving DecidableEq, Repr

/-- The underlying error recorded in the loop's `error` variable: an
`HttpError` with its status code, or one of `RETRIABLE_EXCEPTIONS`
(`httplib2.HttpLib2Error`, `IOError`), i.e. a local I/O-level failure. -/
inductive TranspErr where
  | http (status : ℕ)
  | ioErr
deriving DecidableEq, Repr

/-- Outcome of a single `insert_request.next_chunk()` call:
a normal return `(status, response)` (either component may be `None`),
a raised `HttpError` with a status code, or a raised member of
`RETRIABLE_EXCEPTIONS` (local I/O failure). -/
inductive ChunkOutcome where
  | ok (status : Option Progress) (response : Option UploadResponse)
  | httpExc (status : ℕ)
  | ioExc
deriving DecidableEq, Repr

/-- Terminal outcome of `_resumable_upload`:
`success` (the `return response` path when `"id" in response`),
`fatalHttp` (the bare `raise` for a non-retriable `HttpError`),
`malformed` (the `raise Exception(f"Upload failed: {response}")` path),
`exhausted` (the `raise Exception(... after MAX_RETRIES retries ...)` path,
carrying the last underlying error), or `truncated` when the supplied trace
ends while the loop would keep running (a model artifact only). -/
inductive UploadOutcome where
  | success (resp : UploadResponse)
  | fatalHttp (status : ℕ)
  | malformed (resp : UploadResponse)
  | exhausted (lastError : TranspErr)
  | truncated
deriving DecidableEq, Repr

/-- Observable behaviour of one run of `_resumable_upload`: the terminal
outcome, how many `next_chunk` calls were made, the backoff sleep durations
passed to `time.sleep` in order, and the `(resumable_progress, total_size)`
pairs passed to `progress_callback` in order. -/
structure RunResult where
  outcome : UploadOutcome
  calls : ℕ
  sleeps : List ℚ
  events : List (ℕ × ℕ)
deriving DecidableEq, Repr

/-- The progress-callback invocations caused by one `status` value:
`if status and progress_callback: progress_callback(...)`. -/
def statusEvents : Option Progress → List (ℕ × ℕ)
  | some p => [(p.resumable_progress, p.total_size)]
  | none => []

/-- One-to-one embedding of the `while response is None` loop of
`_resumable_upload` in `youtube.py`, lines 126–153.  `retry` is the loop's
retry counter and `rIdx` indexes the draws of `random.random()`.  Each list
element of `trace` is consumed by exactly one `next_chunk` call.  Per
iteration: a normal return emits the status's progress event, then returns
the response if it has an `"id"`, raises otherwise, or continues the loop
when the response is `None`; a retriable failure (`HttpError` with status
in `RETRIABLE_STATUS_CODES`, or a `RETRIABLE_EXCEPTIONS` member) increments
`retry`, raises the exhausted error when `retry > MAX_RETRIES`, and
otherwise sleeps `random.random() * 2 ** retry` seconds; a non-retriable
`HttpError` is re-raised.  The counter is never reset inside the loop. -/
def runFrom (rand : ℕ → ℚ) : List ChunkOutcome → ℕ → ℕ → RunResult
  | [], _, _ => ⟨.truncated, 0, [], []⟩
  | c :: rest, retry, rIdx =>
    match c with
    | .ok st resp =>
      match resp with
      | some r =>
        match r.id? with
        | some _ => ⟨.success r, 1, [], statusEvents st⟩
        | none => ⟨.malformed r, 1, [], statusEvents st⟩
      | none =>
        let k := runFrom rand rest retry rIdx
        ⟨k.outcome, k.calls + 1, k.sleeps, statusEvents st ++ k.events⟩
    | .httpExc s =>
      if s ∈ RETRIABLE_STATUS_CODES then
        if MAX_RETRIES < retry + 1 then ⟨.exhausted (.http s), 1, [], []⟩
        else
          let k := runFrom rand rest (retry + 1) (rIdx + 1)
          ⟨k.outcome, k.calls + 1, (rand rIdx * 2 ^ (retry + 1)) :: k.sleeps, k.events⟩
      else ⟨.fatalHttp s, 1, [], []⟩
    | .ioExc =>
      if MAX_RETRIES < retry + 1 then ⟨.exhausted .ioErr, 1, [], []⟩
      else
        let k := runFrom rand rest (retry + 1) (rIdx + 1)
        ⟨k.outcome, k.calls + 1, (rand rIdx * 2 ^ (retry + 1)) :: k.sleeps, k.events⟩

/-- A full run of `_resumable_upload`: the loop starts with `retry = 0`
and no random draws consumed. -/
def resumable_upload (rand : ℕ → ℚ) (trace : List ChunkOutcome) : RunResult :=
  runFrom rand trace 0 0

/-- The progress events reported by the transport itself over a trace
segment: one event per `ok` outcome that carries a status. -/
def progressEvents : List ChunkOutcome → List (ℕ × ℕ)
  | [] => []
  | .ok st _ :: rest => statusEvents st ++ progressEvents rest
  | .httpExc _ :: rest => progressEvents rest
  | .ioExc :: rest => progressEvents rest

/-- A transport outcome that the engine treats as retriable: an `HttpError`
whose status is in `RETRIABLE_STATUS_CODES`, or a local I/O failure. -/
def RetriableStep : ChunkOutcome → Prop := fun c =>
  (∃ s, c = .httpExc s ∧ s ∈ RETRIABLE_STATUS_CODES) ∨ c = .ioExc

/-- The underlying error recorded for a failing transport outcome. -/
def stepErr : ChunkOutcome → TranspErr
  | .httpExc s => .http s
  | _ => .ioErr

/-- The base backoff unit of the engine: `time.sleep` takes seconds and the
sleep expression `random.random() * (2 ** retry)` has no further scale
factor, so the base unit is one second. -/
def baseUnit : ℚ := 1

/-- A degenerate random source, used for concrete runs. -/
def rzero : ℕ → ℚ := fun _ => 0

/-- A half-open byte range `[startOffset, endOffset)` produced by the chunk
planner; `isFinal` marks the chunk whose `endOffset` is the source length. -/
structure ChunkDescriptor where
  startOffset : ℕ
  endOffset : ℕ
  isFinal : Bool
deriving DecidableEq, Repr

/-- Modelled from the spec: the chunk partitioning itself is performed by
the `MediaFileUpload` object configured in `upload_video`
(`chunksize=1024 * 1024, resumable=True`) whose implementation is a library
dependency, not part of this repository's sources.  Per spec section 4.1, from a
starting offset the planner emits chunks of length `chunkSize` until the
remainder fits in one final chunk ending at `sourceByteLength`; a source of
length 0 yields exactly one zero-length final chunk, and the chunk size is
required to be positive (the disjunct `C = 0` only guards termination and
is outside the spec's domain). -/
def chunkPlan (N C off : ℕ) : List ChunkDescriptor :=
  if h : N ≤ off + C ∨ C = 0 then [⟨off, N, true⟩]
  else ⟨off, off + C, false⟩ :: chunkPlan N C (off + C)
termination_by N - off
decreasing_by
  push_neg at h
  omega

/-- Outcome of attempting one file of a batch: the body of the `for` loop
in `cli.py`'s `batch` either obtains an upload response carrying a video id,
or raises an exception with a message. -/
inductive AttemptOutcome where
  | ok (videoId : String)
  | exc (msg : String)
deriving DecidableEq, Repr

/-- `get_video_url` in `youtube.py`. -/
def get_video_url (videoId : String) : String :=
  "https://youtu.be/" ++ videoId

/-- The `for i, video in enumerate(videos, 1)` loop of `cli.py`'s `batch`
command, lines 378–419, restricted to its observable results list: each
file is attempted once; a successful attempt appends
`(video.name, video_id, get_video_url(video_id))`, and an attempt whose
body raises is caught by the per-iteration `except` and appends
`(video.name, "", str(e))`, after which the loop proceeds to the next
file. -/
def batchResults : List (String × AttemptOutcome) → List (String × String × String)
  | [] => []
  | (name, .ok vid) :: rest => (name, vid, get_video_url vid) :: batchResults rest
  | (name, .exc msg) :: rest => (name, "", msg) :: batchResults rest

/-- The `while request and len(videos) < max_results` loop of `list_videos`
in `youtube.py`, lines 173–176: while a request remains and fewer than
`max_results` items are accumulated, execute it, extend `videos` with the
page's items, and advance to the next page. -/
def lvLoop (maxr : ℕ) : List (List α) → List α → List α
  | [], acc => acc
  | page :: rest, acc =>
    if acc.length < maxr then lvLoop maxr rest (acc ++ page) else acc

/-- `list_videos` in `youtube.py`, lines 157–178: if the channels response
has no items, return `[]`; otherwise accumulate pages with `lvLoop` and
return `videos[:max_results]`.  `channelsItems` stands for
`channels.get("items")` and `pages` for the successive
`playlistItems` responses reachable through `list_next`. -/
def list_videos (channelsItems : List String) (pages : List (List α))
    (maxr : ℕ) : List α :=
  match channelsItems with
  | [] => []
  | _ :: _ => (lvLoop maxr pages []).take maxr

/-- A random source that always draws one half, used for concrete runs. -/
def rhalf : ℕ → ℚ := fun _ => 1 / 2

/-- Concrete transport trace: six retriable failures, then a chunk is
accepted with forward progress (a progress status and no terminal
response), then five more retriable failures. -/
def c1trace : List ChunkOutcome :=
  List.replicate 6 (.httpExc 500)
    ++ .ok (some ⟨100, 200⟩) none :: List.replicate 5 (.httpExc 500)

/-- Concrete transport trace: the server first reports 100 accepted bytes,
then reports only 50 (the offset moves backward), then completes. -/
def c3trace : List ChunkOutcome :=
  [.ok (some ⟨100, 200⟩) none, .ok (some ⟨50, 200⟩) none,
   .ok (some ⟨200, 200⟩) (some ⟨some "vid"⟩)]

/- ------------------------------------------------------------------
One-step unfolding lemmas for the retry loop.
------------------------------------------------------------------ -/

/-- An exhausted trace: the loop would call `next_chunk` again. -/
theorem runFrom_nil (rand : ℕ → ℚ) (retry rIdx : ℕ) :
    runFrom rand [] retry rIdx = ⟨.truncated, 0, [], []⟩ := rfl

/-- A terminal response carrying an `"id"` is returned at once. -/
theorem runFrom_ok_id (rand : ℕ → ℚ) (st : Option Progress)
    (r : UploadResponse) (rest : List ChunkOutcome) (retry rIdx : ℕ)
    (i : String) (h : r.id? = some i) :
    runFrom rand (.ok st (some r) :: rest) retry rIdx
      = ⟨.success r, 1, [], statusEvents st⟩ := by
  simp [runFrom, h]

/-- A terminal response without an `"id"` raises at once. -/
theorem runFrom_ok_noid (rand : ℕ → ℚ) (st : Option Progress)
    (r : UploadResponse) (rest : List ChunkOutcome) (retry rIdx : ℕ)
    (h : r.id? = none) :
    runFrom rand (.ok st (some r) :: rest) retry rIdx
      = ⟨.malformed r, 1, [], statusEvents st⟩ := by
  simp [runFrom, h]

/-- A non-terminal normal return emits the status's event and loops with
the counter unchanged. -/
theorem runFrom_ok_none (rand : ℕ → ℚ) (st : Option Progress)
    (rest : List ChunkOutcome) (retry rIdx : ℕ) :
    runFrom rand (.ok st none :: rest) retry rIdx
      = ⟨(runFrom rand rest retry rIdx).outcome,
         (runFrom rand rest retry rIdx).calls + 1,
         (runFrom rand rest retry rIdx).sleeps,
         statusEvents st ++ (runFrom rand rest retry rIdx).events⟩ := by
  simp [runFrom]

/-- A non-retriable `HttpError` is re-raised at once. -/
theorem runFrom_http_fatal (rand : ℕ → ℚ) (s : ℕ) (rest : List ChunkOutcome)
    (retry rIdx : ℕ) (hs : s ∉ RETRIABLE_STATUS_CODES) :
    runFrom rand (.httpExc s :: rest) retry rIdx
      = ⟨.fatalHttp s, 1, [], []⟩ := by
  simp [runFrom, hs]

/-- A retriable `HttpError` when the counter is at its cap: exhaustion. -/
theorem runFrom_http_exhaust (rand : ℕ → ℚ) (s : ℕ)
    (rest : List ChunkOutcome) (retry rIdx : ℕ)
    (hs : s ∈ RETRIABLE_STATUS_CODES) (hm : MAX_RETRIES < retry + 1) :
    runFrom rand (.httpExc s :: rest) retry rIdx
      = ⟨.exhausted (.http s), 1, [], []⟩ := by
  simp [runFrom, hs, hm]

/-- A retriable `HttpError` below the cap: sleep and loop with the counter
incremented. -/
theorem runFrom_http_retry (rand : ℕ → ℚ) (s : ℕ) (rest : List ChunkOutcome)
    (retry rIdx : ℕ) (hs : s ∈ RETRIABLE_STATUS_CODES)
    (hm : ¬ MAX_RETRIES < retry + 1) :
    runFrom rand (.httpExc s :: rest) retry rIdx
      = ⟨(runFrom rand rest (retry + 1) (rIdx + 1)).outcome,
         (runFrom rand rest (retry + 1) (rIdx + 1)).calls + 1,
         rand rIdx * 2 ^ (retry + 1)
           :: (runFrom rand rest (retry + 1) (rIdx + 1)).sleeps,
         (runFrom rand rest (retry + 1) (rIdx + 1)).events⟩ := by
  simp [runFrom, hs, hm]

/-- A local I/O failure when the counter is at its cap: exhaustion. -/
theorem runFrom_io_exhaust (rand : ℕ → ℚ) (rest : List ChunkOutcome)
    (retry rIdx : ℕ) (hm : MAX_RETRIES < retry + 1) :
    runFrom rand (.ioExc :: rest) retry rIdx
      = ⟨.exhausted .ioErr, 1, [], []⟩ := by
  simp [runFrom, hm]

/-- A local I/O failure below the cap: sleep and loop with the counter
incremented. -/
theorem runFrom_io_retry (rand : ℕ → ℚ) (rest : List ChunkOutcome)
    (retry rIdx : ℕ) (hm : ¬ MAX_RETRIES < retry + 1) :
    runFrom rand (.ioExc :: rest) retry rIdx
      = ⟨(runFrom rand rest (retry + 1) (rIdx + 1)).outcome,
         (runFrom rand rest (retry + 1) (rIdx + 1)).calls + 1,
         rand rIdx * 2 ^ (retry + 1)
           :: (runFrom rand rest (retry + 1) (rIdx + 1)).sleeps,
         (runFrom rand rest (retry + 1) (rIdx + 1)).events⟩ := by
  simp [runFrom, hm]

/- ------------------------------------------------------------------
Helper lemmas about the retry loop.
------------------------------------------------------------------ -/

/-- If a run starting at counter `retry` ends in `exhausted`, then the
sleeps it performed plus the starting counter total `MAX_RETRIES`: the
counter is never reset, each sleep increments it by one, and exhaustion
fires as soon as it would pass `MAX_RETRIES`. -/
theorem runFrom_exhausted_sleeps (rand : ℕ → ℚ) (trace : List ChunkOutcome) :
    ∀ retry rIdx e, retry ≤ MAX_RETRIES →
      (runFrom rand trace retry rIdx).outcome = .exhausted e →
      (runFrom rand trace retry rIdx).sleeps.length + retry = MAX_RETRIES := by
  induction trace with
  | nil =>
    intro retry rIdx e _ h
    simp [runFrom_nil] at h
  | cons c rest ih =>
    intro retry rIdx e hr h
    cases c with
    | ok st resp =>
      cases resp with
      | some r =>
        cases hid : r.id? with
        | none => rw [runFrom_ok_noid rand st r rest retry rIdx hid] at h; simp at h
        | some i => rw [runFrom_ok_id rand st r rest retry rIdx i hid] at h; simp at h
      | none =>
        rw [runFrom_ok_none] at h ⊢
        exact ih retry rIdx e hr h
    | httpExc s =>
      by_cases hs : s ∈ RETRIABLE_STATUS_CODES
      · by_cases hm : MAX_RETRIES < retry + 1
        · rw [runFrom_http_exhaust rand s rest retry rIdx hs hm]
          simp only [List.length_nil]
          omega
        · rw [runFrom_http_retry rand s rest retry rIdx hs hm] at h ⊢
          have := ih (retry + 1) (rIdx + 1) e (by omega) h
          simp only [List.length_cons]
          omega
      · rw [runFrom_http_fatal rand s rest retry rIdx hs] at h
        simp at h
    | ioExc =>
      by_cases hm : MAX_RETRIES < retry + 1
      · rw [runFrom_io_exhaust rand rest retry rIdx hm]
        simp only [List.length_nil]
        omega
      · rw [runFrom_io_retry rand rest retry rIdx hm] at h ⊢
        have := ih (retry + 1) (rIdx + 1) e (by omega) h
        simp only [List.length_cons]
        omega

/-- A run over a trace of retriable failures only, sized to push the
counter just past `MAX_RETRIES`, ends exhausted on the last underlying
error, after one sleep per failure except the last. -/
theorem runFrom_all_retriable (rand : ℕ → ℚ) (trace : List ChunkOutcome) :
    ∀ retry rIdx d, (∀ c ∈ trace, RetriableStep c) →
      trace.length + retry = MAX_RETRIES + 1 → retry ≤ MAX_RETRIES →
      trace.getLast? = some d →
      (runFrom rand trace retry rIdx).outcome = .exhausted (stepErr d) ∧
      (runFrom rand trace retry rIdx).sleeps.length = MAX_RETRIES - retry ∧
      (runFrom rand trace retry rIdx).calls = trace.length := by
  induction trace with
  | nil =>
    intro retry rIdx d _ _ _ hd
    simp at hd
  | cons c rest ih =>
    intro retry rIdx d hall hlen hr hd
    have hc : RetriableStep c := hall c (List.mem_cons_self c rest)
    cases rest with
    | nil =>
      have hretry : MAX_RETRIES < retry + 1 := by
        simp only [List.length_cons, List.length_nil] at hlen
        omega
      have hd' : d = c := by
        simp only [List.getLast?_singleton, Option.some.injEq] at hd
        exact hd.symm
      subst hd'
      rcases hc with ⟨s, rfl, hs⟩ | rfl
      · rw [runFrom_http_exhaust rand s [] retry rIdx hs hretry]
        refine ⟨rfl, ?_, rfl⟩
        simp only [List.length_nil]
        omega
      · rw [runFrom_io_exhaust rand [] retry rIdx hretry]
        refine ⟨rfl, ?_, rfl⟩
        simp only [List.length_nil]
        omega
    | cons c2 rs =>
      have hlt : retry < MAX_RETRIES := by
        simp only [List.length_cons] at hlen
        omega
      have hd' : (c2 :: rs).getLast? = some d := by
        rwa [List.getLast?_cons_cons] at hd
      have ih' := ih (retry + 1) (rIdx + 1) d
        (fun x hx => hall x (List.mem_cons_of_mem c hx))
        (by simp only [List.length_cons] at hlen ⊢; omega) (by omega) hd'
      have hm : ¬ MAX_RETRIES < retry + 1 := by omega
      rcases hc with ⟨s, rfl, hs⟩ | rfl
      · rw [runFrom_http_retry rand s (c2 :: rs) retry rIdx hs hm]
        exact ⟨ih'.1,
          by simp only [List.length_cons]; rw [ih'.2.1]; omega,
          by simp only [List.length_cons]; rw [ih'.2.2]; simp⟩
      · rw [runFrom_io_retry rand (c2 :: rs) retry rIdx hm]
        exact ⟨ih'.1,
          by simp only [List.length_cons]; rw [ih'.2.1]; omega,
          by simp only [List.length_cons]; rw [ih'.2.2]; simp⟩

/-- The `j`-th sleep performed by a run starting at counter `retry` and
random index `rIdx` is the `(rIdx + j)`-th random draw scaled by
`2 ^ (retry + j + 1)`: the counter is incremented before each sleep and
one random draw is consumed per sleep. -/
theorem runFrom_sleeps_elem (rand : ℕ → ℚ) (trace : List ChunkOutcome) :
    ∀ retry rIdx j d, ((runFrom rand trace retry rIdx).sleeps)[j]? = some d →
      d = rand (rIdx + j) * 2 ^ (retry + j + 1) := by
  induction trace with
  | nil =>
    intro retry rIdx j d hd
    simp [runFrom_nil] at hd
  | cons c rest ih =>
    intro retry rIdx j d hd
    cases c with
    | ok st resp =>
      cases resp with
      | some r =>
        cases hid : r.id? with
        | none => rw [runFrom_ok_noid rand st r rest retry rIdx hid] at hd; simp at hd
        | some i => rw [runFrom_ok_id rand st r rest retry rIdx i hid] at hd; simp at hd
      | none =>
        rw [runFrom_ok_none] at hd
        exact ih retry rIdx j d hd
    | httpExc s =>
      by_cases hs : s ∈ RETRIABLE_STATUS_CODES
      · by_cases hm : MAX_RETRIES < retry + 1
        · rw [runFrom_http_exhaust rand s rest retry rIdx hs hm] at hd
          simp at hd
        · rw [runFrom_http_retry rand s rest retry rIdx hs hm] at hd
          cases j with
          | zero =>
            simp only [List.getElem?_cons_zero, Option.some.injEq] at hd
            simpa using hd.symm
          | succ j' =>
            rw [List.getElem?_cons_succ] at hd
            have := ih (retry + 1) (rIdx + 1) j' d hd
            rw [this]
            have h1 : rIdx + 1 + j' = rIdx + (j' + 1) := by omega
            have h2 : retry + 1 + j' + 1 = retry + (j' + 1) + 1 := by omega
            rw [h1, h2]
      · rw [runFrom_http_fatal rand s rest retry rIdx hs] at hd
        simp at hd
    | ioExc =>
      by_cases hm : MAX_RETRIES < retry + 1
      · rw [runFrom_io_exhaust rand rest retry rIdx hm] at hd
        simp at hd
      · rw [runFrom_io_retry rand rest retry rIdx hm] at hd
        cases j with
        | zero =>
          simp only [List.getElem?_cons_zero, Option.some.injEq] at hd
          simpa using hd.symm
        | succ j' =>
          rw [List.getElem?_cons_succ] at hd
          have := ih (retry + 1) (rIdx + 1) j' d hd
          rw [this]
          have h1 : rIdx + 1 + j' = rIdx + (j' + 1) := by omega
          have h2 : retry + 1 + j' + 1 = retry + (j' + 1) + 1 := by omega
          rw [h1, h2]

/-- The progress events of a run are exactly the progress statuses
reported by the transport over the consumed prefix of the trace, in order
and unfiltered. -/
theorem runFrom_events (rand : ℕ → ℚ) (trace : List ChunkOutcome) :
    ∀ retry rIdx,
      (runFrom rand trace retry rIdx).events
        = progressEvents (trace.take (runFrom rand trace retry rIdx).calls) := by
  induction trace with
  | nil =>
    intro retry rIdx
    simp [runFrom_nil, progressEvents]
  | cons c rest ih =>
    intro retry rIdx
    cases c with
    | ok st resp =>
      cases resp with
      | some r =>
        cases hid : r.id? with
        | none =>
          rw [runFrom_ok_noid rand st r rest retry rIdx hid]
          simp [progressEvents]
        | some i =>
          rw [runFrom_ok_id rand st r rest retry rIdx i hid]
          simp [progressEvents]
      | none =>
        rw [runFrom_ok_none]
        simp only [List.take_succ_cons, progressEvents, List.append_cancel_left_eq]
        exact ih retry rIdx
    | httpExc s =>
      by_cases hs : s ∈ RETRIABLE_STATUS_CODES
      · by_cases hm : MAX_RETRIES < retry + 1
        · rw [runFrom_http_exhaust rand s rest retry rIdx hs hm]
          simp [progressEvents]
        · rw [runFrom_http_retry rand s rest retry rIdx hs hm]
          simp only [List.take_succ_cons, progressEvents]
          exact ih (retry + 1) (rIdx + 1)
      · rw [runFrom_http_fatal rand s rest retry rIdx hs]
        simp [progressEvents]
    | ioExc =>
      by_cases hm : MAX_RETRIES < retry + 1
      · rw [runFrom_io_exhaust rand rest retry rIdx hm]
        simp [progressEvents]
      · rw [runFrom_io_retry rand rest retry rIdx hm]
        simp only [List.take_succ_cons, progressEvents]
        exact ih (retry + 1) (rIdx + 1)

/- ------------------------------------------------------------------
Helper lemmas about the chunk planner.
------------------------------------------------------------------ -/

/-- The planner always emits at least one chunk. -/
theorem chunkPlan_ne_nil (N C off : ℕ) : chunkPlan N C off ≠ [] := by
  rw [chunkPlan]
  split <;> simp

/-- The first chunk starts at the requested offset. -/
theorem chunkPlan_head_start (N C off : ℕ) :
    ∀ d, (chunkPlan N C off).head? = some d → d.startOffset = off := by
  rw [chunkPlan]
  split <;> intro d hd <;>
    simp only [List.head?_cons, Option.some.injEq] at hd <;> rw [← hd]

/-- Bounds on every chunk the planner emits from offset `off ≤ N` with a
positive chunk size: it lies inside `[off, N]`, is at most `C` long, and
is marked final exactly when it ends at `N`. -/
theorem chunkPlan_mem : ∀ (N C off : ℕ), 0 < C → off ≤ N →
    ∀ d ∈ chunkPlan N C off,
      off ≤ d.startOffset ∧ d.startOffset ≤ d.endOffset ∧ d.endOffset ≤ N ∧
      d.endOffset - d.startOffset ≤ C ∧ (d.isFinal = true ↔ d.endOffset = N) := by
  intro N C off
  induction off using chunkPlan.induct N C with
  | case1 off h =>
    intro hC hoff d hd
    rw [chunkPlan, dif_pos h] at hd
    simp only [List.mem_singleton] at hd
    subst hd
    refine ⟨le_refl off, hoff, le_refl N, ?_, by simp⟩
    show N - off ≤ C
    omega
  | case2 off h ih =>
    intro hC hoff d hd
    rw [chunkPlan, dif_neg h] at hd
    have h' : off + C < N := by omega
    rcases List.mem_cons.1 hd with rfl | hd
    · refine ⟨le_refl off, ?_, ?_, ?_, ?_⟩
      · show off ≤ off + C
        omega
      · show off + C ≤ N
        omega
      · show off + C - off ≤ C
        omega
      · show false = true ↔ off + C = N
        simp only [Bool.false_eq_true, false_iff]
        omega
    · have := ih hC (by omega) d hd
      exact ⟨by omega, this.2.1, this.2.2.1, this.2.2.2.1, this.2.2.2.2⟩

/-- Consecutive chunks are contiguous. -/
theorem chunkPlan_chain : ∀ (N C off : ℕ),
    List.Chain' (fun a b => a.endOffset = b.startOffset) (chunkPlan N C off) := by
  intro N C off
  induction off using chunkPlan.induct N C with
  | case1 off h =>
    rw [chunkPlan, dif_pos h]
    simp
  | case2 off h ih =>
    rw [chunkPlan, dif_neg h]
    refine List.chain'_cons'.2 ⟨?_, ih⟩
    intro y hy
    exact (chunkPlan_head_start N C (off + C) y hy).symm

/-- The last chunk ends at the source length and is marked final. -/
theorem chunkPlan_getLast : ∀ (N C off : ℕ) d,
    (chunkPlan N C off).getLast? = some d →
    d.endOffset = N ∧ d.isFinal = true := by
  intro N C off
  induction off using chunkPlan.induct N C with
  | case1 off h =>
    intro d hd
    rw [chunkPlan, dif_pos h] at hd
    simp only [List.getLast?_singleton, Option.some.injEq] at hd
    rw [← hd]
    exact ⟨rfl, rfl⟩
  | case2 off h ih =>
    intro d hd
    rw [chunkPlan, dif_neg h] at hd
    rcases hl : chunkPlan N C (off + C) with _ | ⟨y, ys⟩
    · exact absurd hl (chunkPlan_ne_nil N C (off + C))
    · rw [hl, List.getLast?_cons_cons] at hd
      exact ih d (by rw [hl]; exact hd)

/-- Chunks are pairwise non-overlapping: each ends no later than any later
one starts. -/
theorem chunkPlan_pairwise : ∀ (N C off : ℕ), 0 < C → off ≤ N →
    List.Pairwise (fun a b => a.endOffset ≤ b.startOffset) (chunkPlan N C off) := by
  intro N C off
  induction off using chunkPlan.induct N C with
  | case1 off h =>
    intro _ _
    rw [chunkPlan, dif_pos h]
    simp
  | case2 off h ih =>
    intro hC hoff
    rw [chunkPlan, dif_neg h]
    have h' : off + C < N := by omega
    refine List.pairwise_cons.2 ⟨?_, ih hC (by omega)⟩
    intro y hy
    exact (chunkPlan_mem N C (off + C) hC (by omega) y hy).1

/-- The chunks emitted from offset `off` cover exactly `[off, N)`. -/
theorem chunkPlan_union : ∀ (N C off : ℕ), 0 < C → off ≤ N → ∀ b,
    (off ≤ b ∧ b < N) ↔
      ∃ d ∈ chunkPlan N C off, d.startOffset ≤ b ∧ b < d.endOffset := by
  intro N C off
  induction off using chunkPlan.induct N C with
  | case1 off h =>
    intro hC hoff b
    rw [chunkPlan, dif_pos h]
    simp
  | case2 off h ih =>
    intro hC hoff b
    rw [chunkPlan, dif_neg h]
    have h' : off + C < N := by omega
    have ihb := ih hC (by omega) b
    rw [List.exists_mem_cons_iff, ← ihb]
    show (off ≤ b ∧ b < N) ↔ (off ≤ b ∧ b < off + C) ∨ (off + C ≤ b ∧ b < N)
    omega

/- ------------------------------------------------------------------
Helper lemmas about the batch loop.
------------------------------------------------------------------ -/

/-- The batch loop records one result per attempted file. -/
theorem batchResults_length :
    ∀ videos : List (String × AttemptOutcome),
      (batchResults videos).length = videos.length := by
  intro videos
  induction videos with
  | nil => rfl
  | cons v rest ih =>
    rcases v with ⟨name, a⟩
    cases a <;> simp [batchResults, ih]

/-- The result recorded at position `i` of a batch is determined by the
`i`-th file alone: its name together with its id and watch URL on success,
or its name, an empty id and the error message on failure. -/
theorem batchResults_elem :
    ∀ (videos : List (String × AttemptOutcome)) (i : ℕ)
      (name : String) (a : AttemptOutcome), videos[i]? = some (name, a) →
      (batchResults videos)[i]?
        = some (name, match a with
            | .ok vid => (vid, get_video_url vid)
            | .exc msg => ("", msg)) := by
  intro videos
  induction videos with
  | nil =>
    intro i name a h
    simp at h
  | cons v rest ih =>
    intro i name a h
    rcases v with ⟨name0, a0⟩
    cases i with
    | zero =>
      simp only [List.getElem?_cons_zero, Option.some.injEq, Prod.mk.injEq] at h
      rcases h with ⟨rfl, rfl⟩
      cases a0 <;> simp [batchResults]
    | succ j =>
      rw [List.getElem?_cons_succ] at h
      cases a0 <;> simp only [batchResults, List.getElem?_cons_succ] <;>
        exact ih j name a h

/- ------------------------------------------------------------------
The claims.
------------------------------------------------------------------ -/

/-- C1, counterexample.  On `c1trace` — six retriable failures, then a
chunk accepted with forward progress, then only five further retriable
failures — the engine still raises the retries-exhausted failure: the
retry counter was not reset to 0 when progress was made, so exhaustion is
reached from failures accumulated across different chunks even though only
5 < `MAX_RETRIES` consecutive retriable failures occurred at the final
offset. -/
theorem c1_counterexample :
    (resumable_upload rzero c1trace).outcome = .exhausted (.http 500) ∧
    (resumable_upload rzero c1trace).events = [(100, 200)] ∧
    (resumable_upload rzero c1trace).calls = 12 ∧
    (resumable_upload rzero c1trace).sleeps.length = 10 ∧
    c1trace = List.replicate 6 (.httpExc 500)
      ++ .ok (some ⟨100, 200⟩) none :: List.replicate 5 (.httpExc 500) ∧
    5 < MAX_RETRIES := by
  refine ⟨?_, ?_, ?_, ?_, rfl, by decide⟩ <;> decide

/-- C1 (amended): the retry counter is never reset on forward progress; it
counts retriable failures accumulated over the whole run, across chunks.
Consequently, whenever a run ends in the retries-exhausted failure it has
performed exactly `MAX_RETRIES` backoff sleeps in total — regardless of how
the retriable failures were distributed over offsets. -/
theorem c1_no_reset_total_retries (rand : ℕ → ℚ) (trace : List ChunkOutcome)
    (e : TranspErr)
    (h : (resumable_upload rand trace).outcome = .exhausted e) :
    (resumable_upload rand trace).sleeps.length = MAX_RETRIES := by
  have h2 := runFrom_exhausted_sleeps rand trace 0 0 e (by omega) h
  simpa [resumable_upload] using h2

/-- C1, witness for the amended theorem at a concrete exhausted run. -/
theorem c1_witness :
    (resumable_upload rzero (List.replicate 11 (.httpExc 503))).outcome
      = .exhausted (.http 503) ∧
    (resumable_upload rzero (List.replicate 11 (.httpExc 503))).sleeps.length
      = MAX_RETRIES :=
  ⟨by decide,
   c1_no_reset_total_retries rzero (List.replicate 11 (.httpExc 503))
     (.http 503) (by decide)⟩

/-- C2: with `MAX_RETRIES = 10`, a transport that returns a retriable
error on every call causes exactly 10 backoff sleeps and then the
retries-exhausted failure wrapping the last underlying error.  The run
makes `MAX_RETRIES + 1` transport calls in total — the initial send plus
`MAX_RETRIES` backoff-and-resend retries — and no 11th retry occurs. -/
theorem c2_retry_bound (rand : ℕ → ℚ) (trace : List ChunkOutcome)
    (d : ChunkOutcome) (hall : ∀ c ∈ trace, RetriableStep c)
    (hlen : trace.length = MAX_RETRIES + 1)
    (hd : trace.getLast? = some d) :
    (resumable_upload rand trace).outcome = .exhausted (stepErr d) ∧
    (resumable_upload rand trace).sleeps.length = MAX_RETRIES ∧
    (resumable_upload rand trace).calls = MAX_RETRIES + 1 := by
  have h := runFrom_all_retriable rand trace 0 0 d hall (by omega) (by omega) hd
  exact ⟨h.1, by have := h.2.1; simpa using this, hlen ▸ h.2.2⟩

/-- C2, witness: eleven straight HTTP 500 responses. -/
theorem c2_witness :
    (resumable_upload rzero (List.replicate 11 (.httpExc 500))).outcome
      = .exhausted (.http 500) ∧
    (resumable_upload rzero (List.replicate 11 (.httpExc 500))).sleeps.length
      = MAX_RETRIES ∧
    (resumable_upload rzero (List.replicate 11 (.httpExc 500))).calls
      = MAX_RETRIES + 1 :=
  c2_retry_bound rzero (List.replicate 11 (.httpExc 500)) (.httpExc 500)
    (fun c hc => by
      rw [List.eq_of_mem_replicate hc]
      exact Or.inl ⟨500, rfl, by decide⟩)
    (by decide) (by decide)

/-- C3, counterexample.  On `c3trace` the transport reports 100 accepted
bytes, then only 50 — the offset moves backward — yet the engine forwards
`(50, 200)` to the progress callback and the run completes successfully:
no protocol violation is raised, and the reported offsets are not
non-decreasing. -/
theorem c3_counterexample :
    (resumable_upload rzero c3trace).events
      = [(100, 200), (50, 200), (200, 200)] ∧
    (resumable_upload rzero c3trace).outcome = .success ⟨some "vid"⟩ ∧
    (resumable_upload rzero c3trace).sleeps = [] ∧
    ((resumable_upload rzero c3trace).events)[0]? = some (100, 200) ∧
    ((resumable_upload rzero c3trace).events)[1]? = some (50, 200) ∧ 50 < 100 := by
  refine ⟨?_, ?_, ?_, ?_, ?_, ?_⟩ <;> decide

/-- C3 (amended): the engine maintains no confirmed offset and performs no
backward-offset check; every progress value the transport reports over the
consumed prefix of the trace is forwarded verbatim, in order, to the
progress callback — a regressing offset is silently accepted, never
surfaced as a protocol violation. -/
theorem c3_events_forwarded (rand : ℕ → ℚ) (trace : List ChunkOutcome) :
    (resumable_upload rand trace).events
      = progressEvents (trace.take (resumable_upload rand trace).calls) := by
  exact runFrom_events rand trace 0 0

/-- C4: a transport error is retried with a backoff sleep exactly when it
is an `HttpError` whose status lies in `RETRIABLE_STATUS_CODES`
(`[500, 502, 503, 504]`) or a local I/O failure; an `HttpError` with any
other status is re-raised at once — even on the very first chunk — with
zero backoff sleeps, zero retries and no further transport call. -/
theorem c4_classifier (rand : ℕ → ℚ) (rest : List ChunkOutcome) (s : ℕ) :
    (s ∉ RETRIABLE_STATUS_CODES →
      resumable_upload rand (.httpExc s :: rest) = ⟨.fatalHttp s, 1, [], []⟩) ∧
    (s ∈ RETRIABLE_STATUS_CODES →
      resumable_upload rand (.httpExc s :: rest)
        = ⟨(runFrom rand rest 1 1).outcome, (runFrom rand rest 1 1).calls + 1,
           rand 0 * 2 ^ 1 :: (runFrom rand rest 1 1).sleeps,
           (runFrom rand rest 1 1).events⟩) ∧
    resumable_upload rand (.ioExc :: rest)
      = ⟨(runFrom rand rest 1 1).outcome, (runFrom rand rest 1 1).calls + 1,
         rand 0 * 2 ^ 1 :: (runFrom rand rest 1 1).sleeps,
         (runFrom rand rest 1 1).events⟩ := by
  refine ⟨fun hs => ?_, fun hs => ?_, ?_⟩
  · exact runFrom_http_fatal rand s rest 0 0 hs
  · exact runFrom_http_retry rand s rest 0 0 hs (by decide)
  · exact runFrom_io_retry rand rest 0 0 (by decide)

/-- C4, witness: HTTP 401 is fatal at once; HTTP 500 is retried. -/
theorem c4_witness :
    (401 ∉ RETRIABLE_STATUS_CODES ∧
      resumable_upload rzero [.httpExc 401] = ⟨.fatalHttp 401, 1, [], []⟩) ∧
    (500 ∈ RETRIABLE_STATUS_CODES ∧
      resumable_upload rzero [.httpExc 500]
        = ⟨(runFrom rzero [] 1 1).outcome, (runFrom rzero [] 1 1).calls + 1,
           rzero 0 * 2 ^ 1 :: (runFrom rzero [] 1 1).sleeps,
           (runFrom rzero [] 1 1).events⟩) :=
  ⟨⟨by decide, (c4_classifier rzero [] 401).1 (by decide)⟩,
   ⟨by decide, (c4_classifier rzero [] 500).2.1 (by decide)⟩⟩

/-- C5: the `k`-th backoff delay (1-indexed) of any run is
`baseUnit * r * 2 ^ k` where `r` is the `(k-1)`-th random draw, hence lies
in `[0, baseUnit * 2 ^ k)` whenever the random source draws from `[0, 1)`.
The base unit is one second (`time.sleep(random.random() * 2 ** retry)`). -/
theorem c5_backoff_jitter (rand : ℕ → ℚ) (trace : List ChunkOutcome)
    (k : ℕ) (d : ℚ) (hk : 1 ≤ k) (hkM : k ≤ MAX_RETRIES)
    (hr : ∀ i, 0 ≤ rand i ∧ rand i < 1)
    (hd : ((resumable_upload rand trace).sleeps)[k - 1]? = some d) :
    d = baseUnit * rand (k - 1) * 2 ^ k ∧ 0 ≤ d ∧ d < baseUnit * 2 ^ k := by
  have h := runFrom_sleeps_elem rand trace 0 0 (k - 1) d hd
  have hk' : k - 1 + 1 = k := Nat.sub_add_cancel hk
  rw [Nat.zero_add, hk'] at h
  have h0 : (0 : ℚ) < 2 ^ k := by positivity
  refine ⟨by rw [h, baseUnit, one_mul], ?_, ?_⟩
  · rw [h]
    exact mul_nonneg (hr (k - 1)).1 (le_of_lt h0)
  · rw [h, baseUnit, one_mul]
    calc rand (k - 1) * 2 ^ k < 1 * 2 ^ k :=
          mul_lt_mul_of_pos_right (hr (k - 1)).2 h0
    _ = 2 ^ k := one_mul _

/-- C5, witness: with every draw `1/2`, the first backoff sleep is
`1/2 * 2 ^ 1 = 1` second. -/
theorem c5_witness :
    ((resumable_upload rhalf [.ioExc, .ioExc]).sleeps)[0]? = some 1 ∧
    ((1 : ℚ) = baseUnit * rhalf 0 * 2 ^ 1 ∧ 0 ≤ (1 : ℚ) ∧
      (1 : ℚ) < baseUnit * 2 ^ 1) := by
  have hd : ((resumable_upload rhalf [.ioExc, .ioExc]).sleeps)[0]? = some 1 := by
    show ((runFrom rhalf [.ioExc, .ioExc] 0 0).sleeps)[0]? = some 1
    rw [runFrom_io_retry rhalf [.ioExc] 0 0 (by decide)]
    norm_num [rhalf]
  exact ⟨hd, c5_backoff_jitter rhalf [.ioExc, .ioExc] 1 1 (le_refl 1) (by decide)
    (fun i => by constructor <;> norm_num [rhalf]) hd⟩

/-- C6, counterexample.  A run whose only transport call completes the
upload (the terminal response arrives with no progress status, as the
resumable-upload library reports completion) returns the resource with the
progress callback never invoked: no final event with
`bytesTransferred = totalBytes` is emitted. -/
theorem c6_counterexample :
    (resumable_upload rzero [.ok none (some ⟨some "vid"⟩)]).outcome
      = .success ⟨some "vid"⟩ ∧
    (resumable_upload rzero [.ok none (some ⟨some "vid"⟩)]).events = [] := by
  refine ⟨?_, ?_⟩ <;> decide

/-- C6 (amended): on a `Complete` transport result the engine returns the
resource immediately; the only progress event emitted at that step is the
transport's own reported status, if any — the engine synthesizes no final
`(totalSize, totalSize)` event of its own, and when the completing call
carries no status the callback is not invoked at that step at all. -/
theorem c6_complete_returns (rand : ℕ → ℚ) (rest : List ChunkOutcome)
    (st : Option Progress) (r : UploadResponse) (i : String)
    (h : r.id? = some i) :
    resumable_upload rand (.ok st (some r) :: rest)
      = ⟨.success r, 1, [], statusEvents st⟩ :=
  runFrom_ok_id rand st r rest 0 0 i h

/-- C6, witness: a completing call carrying a mid-file status emits exactly
that status's event and returns. -/
theorem c6_witness :
    (UploadResponse.mk (some "vid")).id? = some "vid" ∧
    resumable_upload rzero [.ok (some ⟨3, 9⟩) (some ⟨some "vid"⟩), .ioExc]
      = ⟨.success ⟨some "vid"⟩, 1, [], [(3, 9)]⟩ :=
  ⟨rfl, c6_complete_returns rzero [.ioExc] (some ⟨3, 9⟩) ⟨some "vid"⟩ "vid" rfl⟩

/-- C7: a terminal response lacking the `"id"` field raises immediately,
from any loop state: the raised exception matches none of the `except`
clauses, so there is no backoff sleep, the retry counter is irrelevant to
the result (the outcome is the same for every counter value), and no
further transport call is made (`calls = 1`, the rest of the trace is
never consumed). -/
theorem c7_malformed_short_circuit (rand : ℕ → ℚ) (rest : List ChunkOutcome)
    (st : Option Progress) (r : UploadResponse) (h : r.id? = none)
    (retry rIdx : ℕ) :
    runFrom rand (.ok st (some r) :: rest) retry rIdx
      = ⟨.malformed r, 1, [], statusEvents st⟩ ∧
    resumable_upload rand (.ok st (some r) :: rest)
      = ⟨.malformed r, 1, [], statusEvents st⟩ :=
  ⟨runFrom_ok_noid rand st r rest retry rIdx h,
   runFrom_ok_noid rand st r rest 0 0 h⟩

/-- C7, witness: a malformed terminal response after a reported status. -/
theorem c7_witness :
    (UploadResponse.mk none).id? = none ∧
    resumable_upload rzero [.ok (some ⟨7, 9⟩) (some ⟨none⟩), .ioExc]
      = ⟨.malformed ⟨none⟩, 1, [], [(7, 9)]⟩ :=
  ⟨rfl, (c7_malformed_short_circuit rzero [.ioExc] (some ⟨7, 9⟩) ⟨none⟩ rfl 0 0).2⟩

/-- C8: for every `N ≥ 0` and `C > 0`, the planner's descriptor list from
offset 0 is finite and non-empty, contiguous, pairwise non-overlapping,
starts at 0, covers exactly `[0, N)`, ends with a final chunk whose end is
`N` and whose length is `N` minus its start (at most `C`), and for `N = 0`
is exactly one zero-length final chunk. -/
theorem c8_chunk_partition (N C : ℕ) (hC : 0 < C) :
    chunkPlan N C 0 ≠ [] ∧
    List.Chain' (fun a b => a.endOffset = b.startOffset) (chunkPlan N C 0) ∧
    List.Pairwise (fun a b => a.endOffset ≤ b.startOffset) (chunkPlan N C 0) ∧
    (∀ d, (chunkPlan N C 0).head? = some d → d.startOffset = 0) ∧
    (∀ b, b < N ↔ ∃ d ∈ chunkPlan N C 0, d.startOffset ≤ b ∧ b < d.endOffset) ∧
    (∀ d, (chunkPlan N C 0).getLast? = some d →
      d.isFinal = true ∧ d.endOffset = N ∧
      d.endOffset - d.startOffset = N - d.startOffset ∧
      d.endOffset - d.startOffset ≤ C) ∧
    (N = 0 → chunkPlan N C 0 = [⟨0, 0, true⟩]) := by
  refine ⟨chunkPlan_ne_nil N C 0, chunkPlan_chain N C 0,
    chunkPlan_pairwise N C 0 hC (Nat.zero_le N),
    fun d hd => chunkPlan_head_start N C 0 d hd, ?_, ?_, ?_⟩
  · intro b
    have := chunkPlan_union N C 0 hC (Nat.zero_le N) b
    simpa using this
  · intro d hd
    have hl := chunkPlan_getLast N C 0 d hd
    have hmem : d ∈ chunkPlan N C 0 := by
      obtain ⟨hne, hdd⟩ := List.mem_getLast?_eq_getLast hd
      rw [hdd]
      exact List.getLast_mem hne
    have hm := chunkPlan_mem N C 0 hC (Nat.zero_le N) d hmem
    refine ⟨hl.2, hl.1, by omega, hm.2.2.2.1⟩
  · intro h
    subst h
    rw [chunkPlan, dif_pos (Or.inl (Nat.zero_le (0 + C)))]

/-- C8, witness: `N = 5`, `C = 2` gives chunks `[0,2), [2,4), [4,5)`. -/
theorem c8_witness :
    0 < 2 ∧ (chunkPlan 5 2 0 ≠ [] ∧
      ∀ d, (chunkPlan 5 2 0).getLast? = some d →
        d.isFinal = true ∧ d.endOffset = 5 ∧
        d.endOffset - d.startOffset = 5 - d.startOffset ∧
        d.endOffset - d.startOffset ≤ 2) :=
  ⟨by decide,
   (c8_chunk_partition 5 2 (by decide)).1,
   fun d hd => (c8_chunk_partition 5 2 (by decide)).2.2.2.2.2.1 d hd⟩

/-- C9: in a batch upload, one file's failure does not abort the batch:
the results list has exactly one entry per file in order, a failing file
contributes `(name, "", message)` at its own position, a succeeding file
contributes `(name, id, watchURL)`, and files after a failure are still
attempted and recorded. -/
theorem c9_batch_isolation (videos : List (String × AttemptOutcome)) :
    (batchResults videos).length = videos.length ∧
    (∀ (i : ℕ) (name msg : String),
      videos[i]? = some (name, AttemptOutcome.exc msg) →
      (batchResults videos)[i]? = some (name, "", msg)) ∧
    (∀ (i : ℕ) (name vid : String),
      videos[i]? = some (name, AttemptOutcome.ok vid) →
      (batchResults videos)[i]? = some (name, vid, get_video_url vid)) := by
  refine ⟨batchResults_length videos, ?_, ?_⟩
  · intro i name msg h
    exact batchResults_elem videos i name (AttemptOutcome.exc msg) h
  · intro i name vid h
    exact batchResults_elem videos i name (AttemptOutcome.ok vid) h

/-- C9, witness: the middle file of three fails; all three are recorded
and the third still proceeds. -/
theorem c9_witness :
    (batchResults [("a.mp4", .ok "id1"), ("b.mp4", .exc "boom"),
        ("c.mp4", .ok "id3")]).length = 3 ∧
    (batchResults [("a.mp4", .ok "id1"), ("b.mp4", .exc "boom"),
        ("c.mp4", .ok "id3")])[1]? = some ("b.mp4", "", "boom") ∧
    (batchResults [("a.mp4", .ok "id1"), ("b.mp4", .exc "boom"),
        ("c.mp4", .ok "id3")])[2]? = some ("c.mp4", "id3", get_video_url "id3") :=
  ⟨(c9_batch_isolation _).1,
   (c9_batch_isolation _).2.1 1 "b.mp4" "boom" (by decide),
   (c9_batch_isolation _).2.2 2 "c.mp4" "id3" (by decide)⟩

/-- C10: `list_videos` returns at most `max_results` items, even when the
pages collectively hold more, and returns `[]` when the channels response
has no items. -/
theorem c10_list_bound {α : Type} (channelsItems : List String)
    (pages : List (List α)) (maxr : ℕ) :
    (list_videos channelsItems pages maxr).length ≤ maxr ∧
    (channelsItems = [] → list_videos channelsItems pages maxr = []) := by
  constructor
  · cases channelsItems with
    | nil => simp [list_videos]
    | cons c cs =>
      simp only [list_videos]
      rw [List.length_take]
      exact min_le_left _ _
  · intro h
    subst h
    rfl

/-- C10, witness: two pages of five total items capped at 2; an empty
channels response yields the empty list. -/
theorem c10_witness :
    (list_videos ["ch"] [[1, 2, 3], [4, 5]] 2).length ≤ 2 ∧
    list_videos ([] : List String) [[1, 2, 3]] 2 = ([] : List ℕ) :=
  ⟨(c10_list_bound ["ch"] [[1, 2, 3], [4, 5]] 2).1,
   (c10_list_bound ([] : List String) [[1, 2, 3]] 2).2 rfl⟩

end Tubecast
